import Mathlib

/-!
Shallow embedding of `src/snakespawn.py` (the snakespawn tool) and proofs
about the claims of its specification.

Conventions of the embedding:
* Python strings are Lean `String`s; where structural recursion is needed we
  work on `String.data : List Char`.
* Ambient effects (filesystem listings, environment variables, subprocess
  results) are passed in explicitly as values, so every function is a pure,
  executable Lean function.
* Fallible Python code (uncaught exceptions) is modelled with explicit
  outcome types; `sys.exit(msg)` is modelled as a dedicated constructor
  carrying the message (CPython exits with status 1 in that case).
-/

namespace Snakespawn

/-- A single quote character, used to model Python `repr` of a string in
f-string interpolation (`{version!r}`). -/
def squote : String := String.singleton (Char.ofNat 39)

/-- Splits a character list at the FIRST occurrence of `c`, like Python
`s.split(c, 1)` when the separator occurs; `none` models the one-element
result when `c` does not occur. -/
def splitOnceChar (c : Char) : List Char → Option (List Char × List Char)
  | [] => none
  | x :: xs =>
    if x = c then some ([], xs)
    else (splitOnceChar c xs).map (fun p => (x :: p.1, p.2))

/-- Splits a character list at EVERY occurrence of `c`, like Python
`s.split(c)`: the empty string yields `[""]`, and empty fields are kept. -/
def splitAllChar (c : Char) : List Char → List Char → List (List Char)
  | [], acc => [acc.reverse]
  | x :: xs, acc =>
    if x = c then acc.reverse :: splitAllChar c xs []
    else splitAllChar c xs (x :: acc)

/-- Python `str.split('.')` on a Lean string. -/
def splitDots (s : String) : List String :=
  (splitAllChar '.' s.data []).map String.mk

/-- Python `str.split(':')`, used for `$PATH` splitting (`os.pathsep` is
a colon on POSIX). -/
def splitColon (s : String) : List String :=
  (splitAllChar ':' s.data []).map String.mk

/-- Python `str.strip()` on a character list: drop whitespace from both
ends.  (Python strips all Unicode whitespace; `Char.isWhitespace` covers
the ASCII cases, which is the relevant fragment here.) -/
def trimChars (cs : List Char) : List Char :=
  ((cs.dropWhile Char.isWhitespace).reverse.dropWhile Char.isWhitespace).reverse

/-- Python `str.strip()` on a Lean string. -/
def pyStrip (s : String) : String := ⟨trimChars s.data⟩

/-- Python `int(s)` restricted to plain unsigned decimal digit strings:
`some` of the value on a nonempty all-digit string, `none` (modelling the
`ValueError` raised by `int`) otherwise.  Inputs with signs, whitespace or
underscores are modelled as failures; no claim exercises them. -/
def pyInt? (s : String) : Option Nat :=
  if s.data.isEmpty then none
  else if s.data.all Char.isDigit then
    some (s.data.foldl (fun n c => 10 * n + (c.toNat - 48)) 0)
  else none

/-- Parse a dotted version string the way `[int(bit) for bit in s.split('.')]`
does: every dot-separated field must be a decimal integer, otherwise the
comprehension raises `ValueError` (modelled as `none`). -/
def parseDotted (s : String) : Option (List Nat) :=
  (splitDots s).mapM pyInt?

/- ### Declaration parsing (`scan_metadata_lines`, `ReqsInfo`) -/

/-- Embeds `scan_metadata_lines`: every line starting with the marker
`#|` and containing a colon contributes the pair
`(before.strip(), after.strip())` where the part after the marker is split
at the first colon; other lines are ignored. -/
def scan_metadata_lines (lines : List String) : List (String × String) :=
  lines.filterMap (fun line =>
    if "#|".data.isPrefixOf line.data && line.data.contains ':' then
      (splitOnceChar ':' (line.data.drop 2)).map
        (fun p => (String.mk (trimChars p.1), String.mk (trimChars p.2)))
    else none)

/-- Embeds the `ReqsInfo` dataclass: an optional version requirement and an
ordered dependency list. -/
structure ReqsInfo where
  python : Option String
  deps : List String
deriving DecidableEq

/-- The loop body of `ReqsInfo.read_file`: the `python` key overwrites
(last occurrence wins), every `pip` key value is appended. -/
def readPairs : List (String × String) → ReqsInfo → ReqsInfo
  | [], acc => acc
  | (k, v) :: rest, acc =>
    if k = "python" then readPairs rest { acc with python := some v }
    else if k = "pip" then readPairs rest { acc with deps := acc.deps ++ [v] }
    else readPairs rest acc

/-- Embeds `ReqsInfo.read_file` over the lines of the declaration file. -/
def ReqsInfo.read_file (lines : List String) : ReqsInfo :=
  readPairs (scan_metadata_lines lines) ⟨none, []⟩

/- ### Runtime discovery (`PYTHONISH`, `look_for_pythons`, the three
iterators)

The ambient filesystem is passed in explicitly: `FS` maps a directory path
to its entries (an absent directory maps to `[]`, which also models
`safe_scan` turning `FileNotFoundError` into an empty iterable, and a glob
over a missing directory yielding nothing). -/

/-- The type of a directory entry as observed by `DirEntry.is_file` /
`is_dir` (both follow symlinks, so each entry has one observed kind). -/
inductive FileKind where
  | file
  | dir
  | other
deriving DecidableEq

/-- One entry of a directory listing: its file name and observed kind. -/
structure DirEntry where
  name : String
  kind : FileKind
deriving DecidableEq

/-- A candidate yielded by discovery: the directory it was found in plus
the entry itself; the full path is `dir ++ "/" ++ entry.name`. -/
structure Item where
  dir : String
  entry : DirEntry
deriving DecidableEq

/-- The ambient filesystem: directory path to listing. -/
def FS : Type := String → List DirEntry

/-- The part of the `PYTHONISH` regular expression after the literal
`python`: `(d(\.\d+)?)?` where the single allowed major-version character
is given by `p`. -/
def verTail (p : Char → Bool) : List Char → Bool
  | [] => true
  | d :: rest =>
    p d && (match rest with
      | [] => true
      | '.' :: ds => !ds.isEmpty && ds.all Char.isDigit
      | _ => false)

/-- Full match of the name pattern: the literal `python` followed by
`verTail p`. -/
def namePattern (p : Char → Bool) (cs : List Char) : Bool :=
  "python".data.isPrefixOf cs && verTail p (cs.drop 6)

/-- Embeds `PYTHONISH.fullmatch`: the regular expression
`python(3(\.\d+)?)?` anchored at both ends.  (Python `\d` also matches
non-ASCII decimal digits; `Char.isDigit` models the ASCII fragment.) -/
def PYTHONISH (cs : List Char) : Bool :=
  namePattern (fun c => c == '3') cs

/-- The file-name pattern as the claims state it: the family token,
optionally followed by a major-version DIGIT, optionally followed by a
dotted minor version. -/
def claimNamePattern (cs : List Char) : Bool :=
  namePattern Char.isDigit cs

/-- Embeds `pathlib.Path(dir).glob('python*')`: the entries of `dir` whose
name starts with `python`, in listing order, tagged with `dir`. -/
def globPythonStar (fs : FS) (dir : String) : List Item :=
  ((fs dir).filter (fun e => "python".data.isPrefixOf e.name.data)).map
    (fun e => ⟨dir, e⟩)

/-- Embeds `look_for_pythons`: glob `python*` in `root` and in
`root/bin`, keep the entries whose name fully matches `PYTHONISH` and
which are regular files. -/
def look_for_pythons (fs : FS) (root : String) : List Item :=
  (globPythonStar fs root ++ globPythonStar fs (root ++ "/bin")).filter
    (fun it => PYTHONISH it.entry.name.data && decide (it.entry.kind = FileKind.file))

/-- Embeds `iter_pythons_path`: `look_for_pythons` over every directory
named in the colon-separated search path value. -/
def iter_pythons_path (fs : FS) (pathVar : String) : List Item :=
  (splitColon pathVar).flatMap (look_for_pythons fs)

/-- Embeds the `safe_scan`-plus-`is_dir` list comprehension: the paths of
the subdirectories of `root`, in listing order. -/
def scanDirs (fs : FS) (root : String) : List String :=
  ((fs root).filter (fun e => decide (e.kind = FileKind.dir))).map
    (fun e => root ++ "/" ++ e.name)

/-- Embeds `iter_pythons_manylinux`: `look_for_pythons` over every
subdirectory of the fixed root `/opt/python`. -/
def iter_pythons_manylinux (fs : FS) : List Item :=
  (scanDirs fs "/opt/python").flatMap (look_for_pythons fs)

/-- Embeds `iter_pythons_pyenv`: `look_for_pythons` over every
subdirectory of `~/.pyenv/versions`, with the expanded home directory
passed in explicitly. -/
def iter_pythons_pyenv (fs : FS) (home : String) : List Item :=
  (scanDirs fs (home ++ "/.pyenv/versions")).flatMap (look_for_pythons fs)

/- ### Version probing (`python_version`) -/

/-- The observable result of the `subprocess.run([path, '-V'], ...)`
call: either the bounded timeout fired, or the process completed with an
exit code and captured standard output. -/
inductive ProbeResult where
  | timeout
  | completed (returncode : Int) (stdout : String)
deriving DecidableEq

/-- Result of a piece of Python code that may raise an uncaught
`ValueError`. -/
inductive PyResult (α : Type) where
  | ok (val : α)
  | valueError
deriving DecidableEq

/-- Embeds `python_version` as a function of the subprocess outcome:
timeout and non-zero exit give `none`; on zero exit the stripped output is
unpacked as `prog, ver = out.split(' ', 1)` (raising `ValueError` when
there is no space) and `ver` is returned only when `prog` is `Python`. -/
def python_version (res : ProbeResult) : PyResult (Option String) :=
  match res with
  | .timeout => .ok none
  | .completed rc stdout =>
    if rc = 0 then
      match splitOnceChar ' ' (pyStrip stdout).data with
      | none => .valueError
      | some p =>
        if String.mk p.1 = "Python" then .ok (some (String.mk p.2)) else .ok none
    else .ok none

/- ### Version resolution (`resolve_python`) -/

/-- Python comparison `a < b` on two lists of integers: lexicographic,
first unequal component decides, and a strict prefix is less than the
longer list. -/
def verLT : List Nat → List Nat → Bool
  | [], [] => false
  | [], _ :: _ => true
  | _ :: _, [] => false
  | a :: as, b :: bs => decide (a < b) || (a == b && verLT as bs)

/-- Python comparison `a >= b` on two lists of integers (a total order, so
`>=` is the negation of `<`). -/
def verGE (a b : List Nat) : Bool := !(verLT a b)

/-- Embeds `re.match(r'\d+(\.\d+)*', version)` as a Boolean: `re.match`
anchors only at the START of the string, so the pattern matches exactly
when the first character is a digit (the starred group may match zero
times and nothing anchors the end). -/
def specCheck (v : String) : Bool :=
  match v.data with
  | [] => false
  | c :: _ => c.isDigit

/-- The fatal message printed by `sys.exit` for a requirement string that
fails `specCheck` (Python `{version!r}` wraps the string in quotes). -/
def versionSpecMsg (v : String) : String :=
  "Currently only supports Python version spec of x.y.z (given " ++ squote
    ++ v ++ squote ++ ")\nFIXME: Support full PEP440"

/-- Embeds `list(filter(lambda i: bool(i[1]), ...))`: keep the probed
pairs whose version is truthy, i.e. present and nonempty; the surviving
version string is unpacked out of its option. -/
def keepProbed (pythons : List (String × Option String)) : List (String × String) :=
  pythons.filterMap (fun pv =>
    match pv.2 with
    | none => none
    | some v => if v = "" then none else some (pv.1, v))

/-- Embeds the requirement loop of `resolve_python`: for each surviving
pair, skip a falsy version (dead code after the filter, kept from the
source), parse the version (`ValueError` propagates, modelled as
`Except.error`), and yield the path when the parsed version is `>=` the
requirement. -/
def yieldMatching (req : List Nat) : List (String × String) → Except Unit (List String)
  | [] => .ok []
  | (path, ver) :: rest =>
    if ver = "" then yieldMatching req rest
    else
      match parseDotted ver with
      | none => .error ()
      | some pv =>
        (yieldMatching req rest).map
          (fun tail => if verGE pv req then path :: tail else tail)

/-- Embeds the key computation of the no-requirement branch, applied to
every surviving pair in input order (CPython `sorted` computes all keys up
front): `none` models a `ValueError` escaping from the key function. -/
def parseAll : List (String × String) → Option (List (String × List Nat))
  | [] => some []
  | (path, ver) :: rest =>
    match parseDotted ver with
    | none => none
    | some key => (parseAll rest).map (fun tail => (path, key) :: tail)

/-- The ordering used to model `sorted(..., key=parsed version,
reverse=True)`: place `a` no later than `b` exactly when the key of `a` is
not less than the key of `b`.  A stable sort under this total preorder is
what CPython guarantees for `reverse=True` (equal keys keep their original
order). -/
def descKey (a b : String × List Nat) : Prop := verLT a.2 b.2 = false

instance : DecidableRel descKey := fun a b => by
  unfold descKey
  infer_instance

/-- Embeds the `else` branch of `resolve_python`: sort the surviving pairs
by parsed version descending (stably) and yield the paths. -/
def sortBranch (ps : List (String × String)) : PyResult (List String) :=
  match parseAll ps with
  | none => .valueError
  | some keyed => .ok ((keyed.insertionSort descKey).map Prod.fst)

/-- The observable outcome of running `resolve_python` to completion:
a fatal `sys.exit` with the version-spec message, an uncaught
`ValueError`, or the list of yielded paths.  (The source is a generator;
it is modelled eagerly, which coincides with the source on every run the
claims are about.) -/
inductive ResolveOutcome where
  | specExit (msg : String)
  | valueError
  | ok (paths : List String)
deriving DecidableEq

/-- Embeds `resolve_python`, with the probed candidates — each discovered
path paired with its `python_version` result — passed in explicitly.
`if version:` is falsy both for `None` and for the empty string. -/
def resolve_python (version : Option String) (pythons : List (String × Option String)) :
    ResolveOutcome :=
  let ps := keepProbed pythons
  match version with
  | some v =>
    if v = "" then
      match sortBranch ps with
      | .valueError => .valueError
      | .ok paths => .ok paths
    else if specCheck v then
      match parseDotted v with
      | none => .valueError
      | some req =>
        match yieldMatching req ps with
        | .error _ => .valueError
        | .ok paths => .ok paths
    else .specExit (versionSpecMsg v)
  | none =>
    match sortBranch ps with
    | .valueError => .valueError
    | .ok paths => .ok paths

/- ### Environment provisioning (`get_venv`) -/

/-- What `get_venv` observably does: the subprocess commands it runs and
the binary path it returns. -/
structure VenvResult where
  commandsRun : List (List String)
  binary : String
deriving DecidableEq

/-- Embeds `get_venv`, with the fresh directory made by `tempfile.mkdtemp`
passed in explicitly: it runs exactly one subprocess —
`[python, '-m', 'venv', venvpath]` — and returns `venvpath + "/bin/python"`.
No command involving `deps` is ever run. -/
def get_venv (python : String) (deps : List String) (venvpath : String) : VenvResult :=
  { commandsRun := [[python, "-m", "venv", venvpath]],
    binary := venvpath ++ "/bin/python" }

/- ### Command line and `main` -/

/-- Embeds the `Args` dataclass. -/
structure Args where
  filename : String
  scriptargs : List String
deriving DecidableEq

/-- Embeds `parse_args` over an explicit `sys.argv` (whose head is the
program name): fewer than two entries is a usage error. -/
def parse_args : List String → Except String Args
  | _ :: filename :: rest => .ok ⟨filename, rest⟩
  | [prog] => .error ("Usage: " ++ prog ++ " filename [args]")
  | [] => .error "Usage: filename [args]"

/-- The ambient state a run of `main` observes: the argument vector, the
lines of the target file, the probed candidates (each discovered path with
its probe result, across all three discovery sources in order), the fresh
directory `tempfile.mkdtemp` would return, and whether the venv-creation
subprocess succeeds (`check=True` raises on failure). -/
structure World where
  argv : List String
  fileLines : List String
  probed : List (String × Option String)
  venvpath : String
  venvOk : Bool

/-- How a run of `main` ends: a fatal `sys.exit` (usage, version-spec or
resolution message), an uncaught exception, or `os.execv` replacing the
process with the given binary and argument vector. -/
inductive MainOutcome where
  | usageExit (msg : String)
  | specExit (msg : String)
  | crash
  | resolutionExit (msg : String)
  | exec (binary : String) (argv : List String)
deriving DecidableEq

/-- True exactly when the outcome makes this process itself terminate
with a non-zero status (`sys.exit(msg)` exits 1, an uncaught exception
exits 1); on `exec` the process image is replaced instead. -/
def MainOutcome.exitsNonzero : MainOutcome → Bool
  | .exec _ _ => false
  | _ => true

/-- The result of a run: its outcome plus whether `get_venv` was ever
invoked (i.e. whether an environment was created). -/
structure MainResult where
  outcome : MainOutcome
  venvInvoked : Bool
deriving DecidableEq

/-- How Python renders `info.python` inside the resolution-failure
f-string: `None` for the absent option, the bare string otherwise. -/
def pyOptStr : Option String → String
  | none => "None"
  | some s => s

/-- Embeds `main`: parse the arguments, read the declaration from the
target file, resolve a Python (`next(...)` takes the first yielded path,
`StopIteration` on an empty sequence becomes the fatal resolution
message), build the venv and exec it with
`[python, args.filename] + args.scriptargs`. -/
def main (w : World) : MainResult :=
  match parse_args w.argv with
  | .error msg => ⟨.usageExit msg, false⟩
  | .ok args =>
    let info := ReqsInfo.read_file w.fileLines
    match resolve_python info.python w.probed with
    | .specExit msg => ⟨.specExit msg, false⟩
    | .valueError => ⟨.crash, false⟩
    | .ok [] =>
      ⟨.resolutionExit ("Could not find a Python matching " ++ pyOptStr info.python), false⟩
    | .ok (p :: _) =>
      let v := get_venv p info.deps w.venvpath
      if w.venvOk then
        ⟨.exec v.binary (v.binary :: args.filename :: args.scriptargs), true⟩
      else ⟨.crash, true⟩

/- ### Order-theoretic facts about `verLT` -/

theorem verLT_irrefl (a : List Nat) : verLT a a = false := by
  induction a with
  | nil => rfl
  | cons x xs ih => simp [verLT, ih]

theorem verLT_asymm (a b : List Nat) (h : verLT a b = true) : verLT b a = false := by
  induction a generalizing b with
  | nil =>
    cases b with
    | nil => simp [verLT] at h
    | cons y ys => simp [verLT]
  | cons x xs ih =>
    cases b with
    | nil => simp [verLT] at h
    | cons y ys =>
      simp only [verLT, Bool.or_eq_true, Bool.and_eq_true, decide_eq_true_eq,
        beq_iff_eq] at h
      rcases h with hlt | ⟨heq, hrec⟩
      · simp [verLT, Nat.lt_asymm hlt, (Nat.ne_of_lt hlt).symm]
      · subst heq
        simp [verLT, ih ys hrec]

theorem verLT_false_trans (a b c : List Nat) (h1 : verLT a b = false)
    (h2 : verLT b c = false) : verLT a c = false := by
  induction a generalizing b c with
  | nil =>
    cases b with
    | nil =>
      cases c with
      | nil => rfl
      | cons z zs => simp [verLT] at h2
    | cons y ys => simp [verLT] at h1
  | cons x xs ih =>
    cases c with
    | nil => rfl
    | cons z zs =>
      cases b with
      | nil => simp [verLT] at h2
      | cons y ys =>
        simp only [verLT, Bool.or_eq_true, Bool.and_eq_true, decide_eq_true_eq,
          beq_iff_eq, Bool.or_eq_false_iff, Bool.and_eq_false_iff,
          decide_eq_false_iff_not, beq_eq_false_iff_ne, ne_eq] at h1 h2 ⊢
        obtain ⟨hxy, hrest1⟩ := h1
        obtain ⟨hyz, hrest2⟩ := h2
        refine ⟨by omega, ?_⟩
        rcases hrest1 with hne | hr1
        · left; omega
        · rcases hrest2 with hne | hr2
          · left; omega
          · exact Or.inr (ih ys zs hr1 hr2)

theorem verLT_connex (a b : List Nat) (h1 : verLT a b = false)
    (h2 : verLT b a = false) : a = b := by
  induction a generalizing b with
  | nil =>
    cases b with
    | nil => rfl
    | cons y ys => simp [verLT] at h1
  | cons x xs ih =>
    cases b with
    | nil => simp [verLT] at h2
    | cons y ys =>
      simp only [verLT, Bool.or_eq_false_iff, Bool.and_eq_false_iff,
        decide_eq_false_iff_not, beq_eq_false_iff_ne, ne_eq] at h1 h2
      have hxy : x = y := by omega
      subst hxy
      rcases h1.2 with hne | hr1
      · exact absurd rfl hne
      · rcases h2.2 with hne | hr2
        · exact absurd rfl hne
        · rw [ih ys hr1 hr2]

instance : IsTotal (String × List Nat) descKey :=
  ⟨fun a b => by
    unfold descKey
    cases h : verLT a.2 b.2 with
    | false => exact Or.inl rfl
    | true => exact Or.inr (verLT_asymm _ _ h)⟩

instance : IsTrans (String × List Nat) descKey :=
  ⟨fun a b c h1 h2 => verLT_false_trans a.2 b.2 c.2 h1 h2⟩

/- ### Helper lemmas about `readPairs` -/

theorem getLast?_cons_eq {α : Type} (v : α) (M : List α) :
    (v :: M).getLast? = some (M.getLast?.getD v) := by
  induction M generalizing v with
  | nil => rfl
  | cons m M ih =>
    rw [List.getLast?_cons_cons, ih m]
    rfl

/-- The values of the `python` keys of a pair list, in order. -/
def pythonVals (pairs : List (String × String)) : List String :=
  (pairs.filter (fun kv => decide (kv.1 = "python"))).map Prod.snd

/-- The values of the `pip` keys of a pair list, in order. -/
def pipVals (pairs : List (String × String)) : List String :=
  (pairs.filter (fun kv => decide (kv.1 = "pip"))).map Prod.snd

theorem readPairs_eq (pairs : List (String × String)) (acc : ReqsInfo) :
    readPairs pairs acc =
      ⟨((pythonVals pairs).getLast?).or acc.python, acc.deps ++ pipVals pairs⟩ := by
  induction pairs generalizing acc with
  | nil => simp [readPairs, pythonVals, pipVals]
  | cons kv rest ih =>
    obtain ⟨k, v⟩ := kv
    by_cases hk : k = "python"
    · subst hk
      rw [readPairs, if_pos rfl]
      rw [ih]
      have hpy : pythonVals (("python", v) :: rest) = v :: pythonVals rest := by
        simp [pythonVals]
      have hpip : pipVals (("python", v) :: rest) = pipVals rest := by
        simp [pipVals]
      rw [hpy, hpip, getLast?_cons_eq]
      cases hL : (pythonVals rest).getLast? with
      | none => simp [Option.or]
      | some w => simp [Option.or]
    · by_cases hk2 : k = "pip"
      · subst hk2
        rw [readPairs, if_neg hk, if_pos rfl]
        rw [ih]
        have hpy : pythonVals (("pip", v) :: rest) = pythonVals rest := by
          simp [pythonVals]
        have hpip : pipVals (("pip", v) :: rest) = v :: pipVals rest := by
          simp [pipVals]
        rw [hpy, hpip]
        simp
      · rw [readPairs, if_neg hk, if_neg hk2]
        rw [ih]
        have hpy : pythonVals ((k, v) :: rest) = pythonVals rest := by
          simp [pythonVals, hk]
        have hpip : pipVals ((k, v) :: rest) = pipVals rest := by
          simp [pipVals, hk2]
        rw [hpy, hpip]

/- ### Helper lemmas about the name pattern -/

theorem verTail_mono (p q : Char → Bool) (hpq : ∀ c, p c = true → q c = true)
    (cs : List Char) (h : verTail p cs = true) : verTail q cs = true := by
  cases cs with
  | nil => rfl
  | cons d rest =>
    simp only [verTail, Bool.and_eq_true] at h ⊢
    exact ⟨hpq d h.1, h.2⟩

theorem namePattern_mono (p q : Char → Bool) (hpq : ∀ c, p c = true → q c = true)
    (cs : List Char) (h : namePattern p cs = true) : namePattern q cs = true := by
  simp only [namePattern, Bool.and_eq_true] at h ⊢
  exact ⟨h.1, verTail_mono p q hpq _ h.2⟩

theorem PYTHONISH_claimNamePattern (cs : List Char) (h : PYTHONISH cs = true) :
    claimNamePattern cs = true := by
  refine namePattern_mono _ _ ?_ cs h
  intro c hc
  have : c = '3' := by simpa using hc
  subst this
  decide

theorem namePattern_isPrefixOf (p : Char → Bool) (cs : List Char)
    (h : namePattern p cs = true) : "python".data.isPrefixOf cs = true := by
  simp only [namePattern, Bool.and_eq_true] at h
  exact h.1

/- ### Stability of the descending insertion sort -/

theorem filter_orderedInsert (k : List Nat) (x : String × List Nat)
    (l : List (String × List Nat)) :
    (l.orderedInsert descKey x).filter (fun pk => decide (pk.2 = k)) =
      ((x :: l).filter (fun pk => decide (pk.2 = k))) := by
  induction l with
  | nil => rfl
  | cons y ys ih =>
    by_cases hxy : descKey x y
    · rw [List.orderedInsert, if_pos hxy]
    · rw [List.orderedInsert, if_neg hxy]
      have hlt : verLT x.2 y.2 = true := by
        unfold descKey at hxy
        cases h : verLT x.2 y.2 with
        | false => exact absurd h hxy
        | true => rfl
      have hne : x.2 ≠ y.2 := by
        intro he
        rw [he, verLT_irrefl] at hlt
        exact Bool.false_ne_true hlt
      rw [List.filter_cons, List.filter_cons, List.filter_cons, ih, List.filter_cons]
      by_cases hpx : x.2 = k
      · have hpy : ¬(y.2 = k) := fun hyk => hne (hpx.trans hyk.symm)
        simp [hpx, hpy]
      · by_cases hpy : y.2 = k
        · simp [hpx, hpy]
        · simp [hpx, hpy]

theorem filter_insertionSort (k : List Nat) (l : List (String × List Nat)) :
    (l.insertionSort descKey).filter (fun pk => decide (pk.2 = k)) =
      l.filter (fun pk => decide (pk.2 = k)) := by
  induction l with
  | nil => rfl
  | cons a l ih =>
    rw [List.insertionSort, filter_orderedInsert, List.filter_cons, List.filter_cons, ih]

/- ### Predicates used by the end-to-end claims -/

/-- The requirement string is absent or inside the behaviour the code
handles without crashing: empty, or passing `specCheck` and parseable. -/
def versionOk : Option String → Prop
  | none => True
  | some s => s = "" ∨ (specCheck s = true ∧ (parseDotted s).isSome)

/-- The effective requirement of a run: the parsed dotted sequence when a
truthy requirement string is present. -/
def effectiveReq : Option String → Option (List Nat)
  | none => none
  | some s => if s = "" then none else parseDotted s

/-- Whether a probe result is a usable version satisfying the (possibly
absent) requirement: the version must be present, truthy and parseable,
and `>=` the requirement when one is given. -/
def usableSat (req : Option (List Nat)) : Option String → Bool
  | none => false
  | some s =>
    if s = "" then false
    else
      match parseDotted s with
      | none => false
      | some pver =>
        match req with
        | none => true
        | some r => verGE pver r

/-- A probe result respects the spec data model for version strings:
absent, or empty, or a parseable dotted-integer sequence. -/
def versionWF : Option String → Prop
  | none => True
  | some s => s = "" ∨ (parseDotted s).isSome

/-- Every probed pair respects the spec data model for version strings. -/
def probedWellFormed (pythons : List (String × Option String)) : Prop :=
  ∀ pv ∈ pythons, versionWF pv.2

theorem yieldMatching_empty (req : List Nat) (l : List (String × String))
    (h : ∀ x ∈ l, ∃ pver, parseDotted x.2 = some pver ∧ verGE pver req = false) :
    yieldMatching req l = .ok [] := by
  induction l with
  | nil => rfl
  | cons x rest ih =>
    obtain ⟨pver, hparse, hge⟩ := h x (List.mem_cons_self x rest)
    obtain ⟨path, ver⟩ := x
    simp only at hparse
    have hver : ¬(ver = "") := by
      intro he
      rw [he, (by decide : parseDotted "" = none)] at hparse
      exact Option.noConfusion hparse
    rw [yieldMatching, if_neg hver, hparse]
    rw [ih (fun y hy => h y (List.mem_cons_of_mem _ hy))]
    simp [Except.map, hge]

theorem keepProbed_empty (pythons : List (String × Option String))
    (h : ∀ pv ∈ pythons, usableSat none pv.2 = false)
    (hwf : probedWellFormed pythons) : keepProbed pythons = [] := by
  rw [keepProbed, List.filterMap_eq_nil_iff]
  intro pv hpv
  have hu := h pv hpv
  have hw := hwf pv hpv
  cases hs : pv.2 with
  | none => simp [hs]
  | some s =>
    rw [hs] at hu hw
    by_cases hse : s = ""
    · simp [hs, hse]
    · exfalso
      simp only [versionWF] at hw
      rcases hw with hw | hw
      · exact hse hw
      · obtain ⟨pver, hparse⟩ := Option.isSome_iff_exists.mp hw
        simp [usableSat, hse, hparse] at hu

theorem resolve_empty (version : Option String) (pythons : List (String × Option String))
    (hok : versionOk version) (hwf : probedWellFormed pythons)
    (h : ∀ pv ∈ pythons, usableSat (effectiveReq version) pv.2 = false) :
    resolve_python version pythons = .ok [] := by
  cases version with
  | none =>
    have hkp : keepProbed pythons = [] := keepProbed_empty pythons h hwf
    simp [resolve_python, hkp, sortBranch, parseAll]
  | some v =>
    by_cases hv : v = ""
    · subst hv
      have hkp : keepProbed pythons = [] := keepProbed_empty pythons h hwf
      simp [resolve_python, hkp, sortBranch, parseAll]
    · rcases hok with hok | ⟨hspec, hparse⟩
      · exact absurd hok hv
      · obtain ⟨req, hreq⟩ := Option.isSome_iff_exists.mp hparse
        have heff : effectiveReq (some v) = some req := by
          simp [effectiveReq, hv, hreq]
        have hym : yieldMatching req (keepProbed pythons) = .ok [] := by
          apply yieldMatching_empty
          intro x hx
          rw [keepProbed, List.mem_filterMap] at hx
          obtain ⟨pv, hpv, hf⟩ := hx
          have hu := h pv hpv
          have hw := hwf pv hpv
          rw [heff] at hu
          cases hs : pv.2 with
          | none => rw [hs] at hf; simp at hf
          | some s =>
            rw [hs] at hf hw hu
            by_cases hse : s = ""
            · simp [hse] at hf
            · simp only [hse, if_false, ite_false] at hf
              have hxeq : x = (pv.1, s) := by
                simp [hse] at hf
                exact hf.symm
              subst hxeq
              simp only [versionWF] at hw
              rcases hw with hw | hw
              · exact absurd hw hse
              · obtain ⟨pver, hp⟩ := Option.isSome_iff_exists.mp hw
                refine ⟨pver, by simpa using hp, ?_⟩
                simp only [usableSat, hse, hp] at hu
                simpa [hse] using hu
        simp [resolve_python, hv, hspec, hreq, hym]

/- ### Claim theorems -/

/-- C1: the claim states that `get_venv` installs each declared dependency
specifier, in declared order, into the new environment before returning.
The code does not: its result is entirely independent of the dependency
list, the only subprocess it runs is the venv-creation command, and no
command it runs mentions any declared dependency (here `alpha`). -/
theorem get_venv_runs_no_install :
    (∀ python deps venvpath, get_venv python deps venvpath = get_venv python [] venvpath)
    ∧ (get_venv "python3" ["alpha"] "/tmp/snakespawn0").commandsRun
        = [["python3", "-m", "venv", "/tmp/snakespawn0"]]
    ∧ ((get_venv "python3" ["alpha"] "/tmp/snakespawn0").commandsRun.all
        (fun cmd => !(cmd.contains "alpha"))) = true :=
  ⟨fun _ _ _ => rfl, rfl, by decide⟩

/-- C2: the claim states that every requirement string that is not a
dotted sequence of non-negative integers makes `resolve_python` exit with
the fatal version-spec message before any comparison.  This holds for
`abc`, but the validation `re.match` is not anchored at the end of the
string, so `1.a` passes `specCheck` and the run dies with an uncaught
`ValueError` from `int('a')` instead of the fatal version-spec exit. -/
theorem resolve_python_malformed_requirement :
    resolve_python (some "abc") [("x", some "3.9.0")] = .specExit (versionSpecMsg "abc")
    ∧ specCheck "1.a" = true
    ∧ resolve_python (some "1.a") [("x", some "3.9.0")] = .valueError := by
  decide

/-- C3: the claim states that `python_version` never raises: timeout,
non-zero exit and non-parseable output (including output with no space)
all give `None`.  Timeout and non-zero exit do give `None`, but output
with no space makes the two-target unpacking of `out.split(' ', 1)` raise
an uncaught `ValueError`. -/
theorem python_version_no_space_raises :
    python_version (.completed 0 "Python3.11") = .valueError
    ∧ python_version .timeout = .ok none
    ∧ python_version (.completed 1 "garbage") = .ok none
    ∧ python_version (.completed 0 "Python 3.11.2") = .ok (some "3.11.2")
    ∧ python_version (.completed 0 "Jython 2.7.1") = .ok none := by
  decide

/-- C4: version comparison in `resolve_python` is component-wise integer
comparison of dotted sequences, a strictly shorter sequence being less
than any extension of it: requirement `3.9` accepts probed `3.9.0`,
`3.9.7` and `3.10.0` and rejects `3.8.10`, and requirement `3.10` accepts
`3.10.4` and rejects `3.9.9`. -/
theorem version_comparison_spec :
    (∀ pre x rest, verLT pre (pre ++ x :: rest) = true)
    ∧ (∀ a b as bs, verLT (a :: as) (b :: bs)
        = (decide (a < b) || (a == b && verLT as bs)))
    ∧ resolve_python (some "3.9")
        [("p1", some "3.9.0"), ("p2", some "3.9.7"), ("p3", some "3.10.0"),
          ("p4", some "3.8.10")] = .ok ["p1", "p2", "p3"]
    ∧ resolve_python (some "3.10") [("a", some "3.10.4"), ("b", some "3.9.9")]
        = .ok ["a"] := by
  refine ⟨?_, fun a b as bs => rfl, by decide, by decide⟩
  intro pre x rest
  induction pre with
  | nil => rfl
  | cons a pre ih => simp [verLT, ih]

/-- C5: with no version requirement, `resolve_python` yields the paths of
all candidates with a version, sorted by probed version descending under
the component-wise comparison, with a stable sort: the sorted sequence is
a permutation of the accepted candidates, consecutive elements are
non-increasing, and for every fixed version value the candidates carrying
it appear in exactly their discovery order. -/
theorem resolve_no_requirement_sorts (pythons : List (String × Option String))
    (keyed : List (String × List Nat))
    (hparse : parseAll (keepProbed pythons) = some keyed) :
    resolve_python none pythons = .ok ((keyed.insertionSort descKey).map Prod.fst)
    ∧ (keyed.insertionSort descKey).Perm keyed
    ∧ List.Pairwise descKey (keyed.insertionSort descKey)
    ∧ ∀ k, (keyed.insertionSort descKey).filter (fun pk => decide (pk.2 = k))
        = keyed.filter (fun pk => decide (pk.2 = k)) := by
  refine ⟨?_, List.perm_insertionSort descKey keyed, ?_,
    fun k => filter_insertionSort k keyed⟩
  · simp [resolve_python, sortBranch, hparse]
  · exact List.sorted_insertionSort descKey keyed

/-- Witness for C5 at a concrete probed set: two candidates share version
`3.9.7` and keep their discovery order below the `3.10.0` one, and the
versionless candidate is dropped. -/
theorem resolve_no_requirement_sorts_witness :
    parseAll (keepProbed
        [("a", some "3.9.7"), ("b", some "3.10.0"), ("c", some "3.9.7"), ("d", none)])
      = some [("a", [3, 9, 7]), ("b", [3, 10, 0]), ("c", [3, 9, 7])]
    ∧ (resolve_python none
          [("a", some "3.9.7"), ("b", some "3.10.0"), ("c", some "3.9.7"), ("d", none)]
        = .ok ((([("a", [3, 9, 7]), ("b", [3, 10, 0]),
            ("c", [3, 9, 7])].insertionSort descKey)).map Prod.fst)
      ∧ ([("a", [3, 9, 7]), ("b", [3, 10, 0]),
            ("c", [3, 9, 7])].insertionSort descKey).Perm
          [("a", [3, 9, 7]), ("b", [3, 10, 0]), ("c", [3, 9, 7])]
      ∧ List.Pairwise descKey
          ([("a", [3, 9, 7]), ("b", [3, 10, 0]), ("c", [3, 9, 7])].insertionSort descKey)
      ∧ ∀ k, (([("a", [3, 9, 7]), ("b", [3, 10, 0]),
            ("c", [3, 9, 7])].insertionSort descKey).filter (fun pk => decide (pk.2 = k)))
          = [("a", [3, 9, 7]), ("b", [3, 10, 0]),
              ("c", [3, 9, 7])].filter (fun pk => decide (pk.2 = k))) :=
  ⟨by decide, resolve_no_requirement_sorts _ _ (by decide)⟩

/-- C6: `ReqsInfo.read_file` resolves the requirement to the value of the
LAST `python` line, collects the value of EVERY `pip` line in order with
duplicates preserved, and produces no requirement and an empty dependency
list when no recognized line occurs. -/
theorem read_file_spec (lines : List String) :
    (ReqsInfo.read_file lines).python
      = (((scan_metadata_lines lines).filter
            (fun kv => decide (kv.1 = "python"))).map Prod.snd).getLast?
    ∧ (ReqsInfo.read_file lines).deps
      = ((scan_metadata_lines lines).filter
            (fun kv => decide (kv.1 = "pip"))).map Prod.snd
    ∧ ((scan_metadata_lines lines).filter
          (fun kv => decide (kv.1 = "python" ∨ kv.1 = "pip")) = []
        → ReqsInfo.read_file lines = ⟨none, []⟩) := by
  have h := readPairs_eq (scan_metadata_lines lines) ⟨none, []⟩
  rw [ReqsInfo.read_file] at *
  rw [h]
  refine ⟨?_, ?_, ?_⟩
  · show (pythonVals (scan_metadata_lines lines)).getLast?.or none = _
    rw [Option.or_none]
    rfl
  · show ([] : List String) ++ pipVals (scan_metadata_lines lines) = _
    rw [List.nil_append]
    rfl
  intro hnone
  rw [List.filter_eq_nil_iff] at hnone
  have hpy : pythonVals (scan_metadata_lines lines) = [] := by
    rw [pythonVals, List.filter_eq_nil_iff.mpr, List.map_nil]
    intro kv hkv
    have := hnone kv hkv
    simp at this ⊢
    exact this.1
  have hpip : pipVals (scan_metadata_lines lines) = [] := by
    rw [pipVals, List.filter_eq_nil_iff.mpr, List.map_nil]
    intro kv hkv
    have := hnone kv hkv
    simp at this ⊢
    exact this.2
  rw [hpy, hpip]
  rfl

/-- Witness for C6 at a concrete declaration text with marker lines but no
recognized key. -/
theorem read_file_spec_witness :
    ((scan_metadata_lines ["x = 1", "#| nothing here", "#| other: v"]).filter
        (fun kv => decide (kv.1 = "python" ∨ kv.1 = "pip")) = [])
    ∧ ReqsInfo.read_file ["x = 1", "#| nothing here", "#| other: v"] = ⟨none, []⟩ :=
  ⟨by decide, (read_file_spec ["x = 1", "#| nothing here", "#| other: v"]).2.2 (by decide)⟩

theorem look_for_pythons_sound (fs : FS) (root : String) (it : Item)
    (h : it ∈ look_for_pythons fs root) :
    claimNamePattern it.entry.name.data = true ∧ it.entry.kind = FileKind.file := by
  rw [look_for_pythons, List.mem_filter] at h
  obtain ⟨-, hpred⟩ := h
  rw [Bool.and_eq_true] at hpred
  refine ⟨PYTHONISH_claimNamePattern _ hpred.1, ?_⟩
  simpa using hpred.2

/-- C7: every item yielded by `look_for_pythons` — and hence by any of the
three discovery sources — has a file name matching the family token
optionally followed by a major-version digit optionally followed by a
dotted minor version, and is a regular file; an entry of directory type is
never yielded. -/
theorem yielded_name_and_kind :
    (∀ fs root it, it ∈ look_for_pythons fs root →
      claimNamePattern it.entry.name.data = true ∧ it.entry.kind = FileKind.file
        ∧ it.entry.kind ≠ FileKind.dir)
    ∧ (∀ fs pathVar it, it ∈ iter_pythons_path fs pathVar →
      claimNamePattern it.entry.name.data = true ∧ it.entry.kind = FileKind.file
        ∧ it.entry.kind ≠ FileKind.dir)
    ∧ (∀ fs it, it ∈ iter_pythons_manylinux fs →
      claimNamePattern it.entry.name.data = true ∧ it.entry.kind = FileKind.file
        ∧ it.entry.kind ≠ FileKind.dir)
    ∧ (∀ fs home it, it ∈ iter_pythons_pyenv fs home →
      claimNamePattern it.entry.name.data = true ∧ it.entry.kind = FileKind.file
        ∧ it.entry.kind ≠ FileKind.dir) := by
  have base : ∀ fs root it, it ∈ look_for_pythons fs root →
      claimNamePattern it.entry.name.data = true ∧ it.entry.kind = FileKind.file
        ∧ it.entry.kind ≠ FileKind.dir := by
    intro fs root it h
    obtain ⟨h1, h2⟩ := look_for_pythons_sound fs root it h
    exact ⟨h1, h2, by rw [h2]; exact fun hc => FileKind.noConfusion hc⟩
  refine ⟨base, ?_, ?_, ?_⟩
  · intro fs pathVar it h
    rw [iter_pythons_path, List.mem_flatMap] at h
    obtain ⟨d, -, hd⟩ := h
    exact base fs d it hd
  · intro fs it h
    rw [iter_pythons_manylinux, List.mem_flatMap] at h
    obtain ⟨d, -, hd⟩ := h
    exact base fs d it hd
  · intro fs home it h
    rw [iter_pythons_pyenv, List.mem_flatMap] at h
    obtain ⟨d, -, hd⟩ := h
    exact base fs d it hd

/-- A concrete filesystem for the C7 witness: `/usr/bin` holds a regular
file `python3.11`, a directory named `python3` and a file `pythonfoo`. -/
def fsWitnessA : FS := fun d =>
  if d = "/usr/bin" then
    [⟨"python3.11", FileKind.file⟩, ⟨"python3", FileKind.dir⟩, ⟨"pythonfoo", FileKind.file⟩]
  else []

/-- Witness for C7: on `fsWitnessA`, `look_for_pythons` yields exactly the
regular file `python3.11`, whose name matches the claim pattern. -/
theorem yielded_name_and_kind_witness :
    ((⟨"/usr/bin", ⟨"python3.11", FileKind.file⟩⟩ : Item)
        ∈ look_for_pythons fsWitnessA "/usr")
    ∧ (claimNamePattern (String.data "python3.11") = true
        ∧ FileKind.file = FileKind.file ∧ FileKind.file ≠ FileKind.dir) :=
  ⟨by decide,
    yielded_name_and_kind.1 fsWitnessA "/usr"
      ⟨"/usr/bin", ⟨"python3.11", FileKind.file⟩⟩ (by decide)⟩

theorem look_for_pythons_complete (fs : FS) (dir root : String) (e : DirEntry)
    (hmem : e ∈ fs dir) (hdir : dir = root ∨ dir = root ++ "/bin")
    (hname : PYTHONISH e.name.data = true) (hkind : e.kind = FileKind.file) :
    (⟨dir, e⟩ : Item) ∈ look_for_pythons fs root := by
  rw [look_for_pythons, List.mem_filter]
  constructor
  · rw [List.mem_append]
    have hglob : ∀ d, e ∈ fs d → (⟨d, e⟩ : Item) ∈ globPythonStar fs d := by
      intro d hd
      rw [globPythonStar, List.mem_map]
      refine ⟨e, ?_, rfl⟩
      rw [List.mem_filter]
      exact ⟨hd, namePattern_isPrefixOf _ _ hname⟩
    rcases hdir with hdir | hdir
    · subst hdir
      exact Or.inl (hglob dir hmem)
    · subst hdir
      exact Or.inr (hglob _ hmem)
  · rw [Bool.and_eq_true]
    exact ⟨hname, by simp [hkind]⟩

/-- C10: `look_for_pythons` scans both the root directory itself and the
root's `bin` subdirectory, so a matching regular file in either place is
yielded; consequently a matching binary in the `bin` subdirectory of a
search-path entry is yielded by `iter_pythons_path`, and one directly
inside an install directory of the fixed manylinux root (outside its `bin`
subdirectory) is yielded by `iter_pythons_manylinux`. -/
theorem look_for_pythons_scans_root_and_bin :
    (∀ fs root e, e ∈ fs root → PYTHONISH e.name.data = true →
      e.kind = FileKind.file → (⟨root, e⟩ : Item) ∈ look_for_pythons fs root)
    ∧ (∀ fs root e, e ∈ fs (root ++ "/bin") → PYTHONISH e.name.data = true →
      e.kind = FileKind.file →
      (⟨root ++ "/bin", e⟩ : Item) ∈ look_for_pythons fs root)
    ∧ (∀ fs pathVar d e, d ∈ splitColon pathVar → e ∈ fs (d ++ "/bin") →
      PYTHONISH e.name.data = true → e.kind = FileKind.file →
      (⟨d ++ "/bin", e⟩ : Item) ∈ iter_pythons_path fs pathVar)
    ∧ (∀ fs d e, d ∈ fs "/opt/python" → d.kind = FileKind.dir →
      e ∈ fs ("/opt/python" ++ "/" ++ d.name) → PYTHONISH e.name.data = true →
      e.kind = FileKind.file →
      (⟨"/opt/python" ++ "/" ++ d.name, e⟩ : Item) ∈ iter_pythons_manylinux fs) := by
  refine ⟨?_, ?_, ?_, ?_⟩
  · intro fs root e hmem hname hkind
    exact look_for_pythons_complete fs root root e hmem (Or.inl rfl) hname hkind
  · intro fs root e hmem hname hkind
    exact look_for_pythons_complete fs _ root e hmem (Or.inr rfl) hname hkind
  · intro fs pathVar d e hd hmem hname hkind
    rw [iter_pythons_path, List.mem_flatMap]
    exact ⟨d, hd, look_for_pythons_complete fs _ d e hmem (Or.inr rfl) hname hkind⟩
  · intro fs d e hd hdkind hmem hname hkind
    rw [iter_pythons_manylinux, List.mem_flatMap]
    refine ⟨"/opt/python" ++ "/" ++ d.name, ?_, ?_⟩
    · rw [scanDirs, List.mem_map]
      refine ⟨d, ?_, rfl⟩
      rw [List.mem_filter]
      exact ⟨hd, by simp [hdkind]⟩
    · exact look_for_pythons_complete fs _ _ e hmem (Or.inl rfl) hname hkind

/-- A concrete filesystem for the C10 witness: a matching binary in the
`bin` subdirectory of the search-path entry `/opt/tools`, and one directly
inside the manylinux install directory `/opt/python/cp311`. -/
def fsWitnessB : FS := fun d =>
  if d = "/opt/tools/bin" then [⟨"python3", FileKind.file⟩]
  else if d = "/opt/python" then [⟨"cp311", FileKind.dir⟩]
  else if d = "/opt/python/cp311" then [⟨"python3.11", FileKind.file⟩]
  else []

/-- Witness for C10: both consequence parts at concrete inputs. -/
theorem look_for_pythons_scans_root_and_bin_witness :
    (("/opt/tools" ∈ splitColon "/usr/bin:/opt/tools")
      ∧ (⟨"python3", FileKind.file⟩ : DirEntry) ∈ fsWitnessB ("/opt/tools" ++ "/bin")
      ∧ (⟨"/opt/tools" ++ "/bin", ⟨"python3", FileKind.file⟩⟩ : Item)
          ∈ iter_pythons_path fsWitnessB "/usr/bin:/opt/tools")
    ∧ ((⟨"cp311", FileKind.dir⟩ : DirEntry) ∈ fsWitnessB "/opt/python"
      ∧ (⟨"python3.11", FileKind.file⟩ : DirEntry)
          ∈ fsWitnessB ("/opt/python" ++ "/" ++ "cp311")
      ∧ (⟨"/opt/python" ++ "/" ++ "cp311", ⟨"python3.11", FileKind.file⟩⟩ : Item)
          ∈ iter_pythons_manylinux fsWitnessB) :=
  ⟨⟨by decide, by decide,
      look_for_pythons_scans_root_and_bin.2.2.1 fsWitnessB "/usr/bin:/opt/tools"
        "/opt/tools" ⟨"python3", FileKind.file⟩ (by decide) (by decide) (by decide) rfl⟩,
    ⟨by decide, by decide,
      look_for_pythons_scans_root_and_bin.2.2.2 fsWitnessB ⟨"cp311", FileKind.dir⟩
        ⟨"python3.11", FileKind.file⟩ (by decide) rfl (by decide) (by decide) rfl⟩⟩

/-- C8: when no probed candidate reports a usable version satisfying the
(possibly absent, well-formed) requirement, `main` terminates with the
fatal resolution message and a non-zero exit, and no environment is ever
created: `get_venv` is never invoked. -/
theorem no_usable_candidate_fatal (w : World) (prog fname : String) (rest : List String)
    (hargv : w.argv = prog :: fname :: rest)
    (hok : versionOk (ReqsInfo.read_file w.fileLines).python)
    (hwf : probedWellFormed w.probed)
    (hnone : ∀ pv ∈ w.probed,
      usableSat (effectiveReq (ReqsInfo.read_file w.fileLines).python) pv.2 = false) :
    (main w).outcome = .resolutionExit
        ("Could not find a Python matching "
          ++ pyOptStr (ReqsInfo.read_file w.fileLines).python)
      ∧ (main w).outcome.exitsNonzero = true
      ∧ (main w).venvInvoked = false := by
  have hres := resolve_empty _ w.probed hok hwf hnone
  have hm : main w = ⟨.resolutionExit
      ("Could not find a Python matching "
        ++ pyOptStr (ReqsInfo.read_file w.fileLines).python), false⟩ := by
    rw [main, hargv]
    simp only [parse_args]
    rw [hres]
  rw [hm]
  exact ⟨rfl, rfl, rfl⟩

/-- Witness for C8: an empty probed set with an empty declaration file. -/
theorem no_usable_candidate_fatal_witness :
    ((⟨["snakespawn", "script.py"], [], [], "/tmp/v", true⟩ : World).argv
        = "snakespawn" :: "script.py" :: [])
    ∧ versionOk (ReqsInfo.read_file
        (⟨["snakespawn", "script.py"], [], [], "/tmp/v", true⟩ : World).fileLines).python
    ∧ ((main (⟨["snakespawn", "script.py"], [], [], "/tmp/v", true⟩ : World)).outcome
        = .resolutionExit ("Could not find a Python matching "
            ++ pyOptStr (ReqsInfo.read_file
                (⟨["snakespawn", "script.py"], [], [], "/tmp/v", true⟩ : World).fileLines).python)
      ∧ (main (⟨["snakespawn", "script.py"], [], [], "/tmp/v", true⟩ : World)).outcome.exitsNonzero
          = true
      ∧ (main (⟨["snakespawn", "script.py"], [], [], "/tmp/v", true⟩ : World)).venvInvoked
          = false) :=
  ⟨rfl, trivial,
    no_usable_candidate_fatal ⟨["snakespawn", "script.py"], [], [], "/tmp/v", true⟩
      "snakespawn" "script.py" [] rfl trivial
      (fun pv h => absurd h (List.not_mem_nil pv))
      (fun pv h => absurd h (List.not_mem_nil pv))⟩

/-- C9: when resolution selects a runtime and the venv is created, `main`
replaces the process with the provisioned binary (the python inside the
fresh venv directory) whose argument vector is exactly that binary's own
path, then the original target script path, then every trailing
command-line argument in original order, unmodified. -/
theorem exec_argv_spec (w : World) (prog fname : String) (rest : List String)
    (p : String) (ps : List String)
    (hargv : w.argv = prog :: fname :: rest)
    (hres : resolve_python (ReqsInfo.read_file w.fileLines).python w.probed = .ok (p :: ps))
    (hvenv : w.venvOk = true) :
    (main w).outcome =
      .exec (w.venvpath ++ "/bin/python")
        ((w.venvpath ++ "/bin/python") :: fname :: rest)
      ∧ (main w).venvInvoked = true := by
  have hm : main w = ⟨.exec (w.venvpath ++ "/bin/python")
      ((w.venvpath ++ "/bin/python") :: fname :: rest), true⟩ := by
    rw [main, hargv]
    simp only [parse_args]
    rw [hres]
    simp [get_venv, hvenv]
  rw [hm]
  exact ⟨rfl, rfl⟩

/-- Witness for C9: a single discovered candidate probing `3.11.2`, no
requirement, two trailing script arguments forwarded verbatim. -/
theorem exec_argv_spec_witness :
    ((⟨["snakespawn", "app.py", "--flag", "7"], [],
        [("/usr/bin/python3", some "3.11.2")], "/tmp/venv1", true⟩ : World).argv
      = "snakespawn" :: "app.py" :: ["--flag", "7"])
    ∧ resolve_python
        (ReqsInfo.read_file (⟨["snakespawn", "app.py", "--flag", "7"], [],
          [("/usr/bin/python3", some "3.11.2")], "/tmp/venv1", true⟩ : World).fileLines).python
        (⟨["snakespawn", "app.py", "--flag", "7"], [],
          [("/usr/bin/python3", some "3.11.2")], "/tmp/venv1", true⟩ : World).probed
      = .ok ("/usr/bin/python3" :: [])
    ∧ ((main (⟨["snakespawn", "app.py", "--flag", "7"], [],
          [("/usr/bin/python3", some "3.11.2")], "/tmp/venv1", true⟩ : World)).outcome
        = .exec ("/tmp/venv1" ++ "/bin/python")
            (("/tmp/venv1" ++ "/bin/python") :: "app.py" :: ["--flag", "7"])
      ∧ (main (⟨["snakespawn", "app.py", "--flag", "7"], [],
          [("/usr/bin/python3", some "3.11.2")], "/tmp/venv1", true⟩ : World)).venvInvoked
        = true) :=
  ⟨rfl, by decide,
    exec_argv_spec
      ⟨["snakespawn", "app.py", "--flag", "7"], [],
        [("/usr/bin/python3", some "3.11.2")], "/tmp/venv1", true⟩
      "snakespawn" "app.py" ["--flag", "7"] "/usr/bin/python3" [] rfl (by decide) rfl⟩

end Snakespawn
